import Mathlib

/-!
Verification of the schema-delta type generator
(`src/plugin` type generation script: `mapType`, `pascal`, `diff`, `generate`).

The generator is embedded shallowly.  JavaScript `Record` objects are
modelled as association lists (`List (String × _)`) because the code relies
on insertion order of string keys for deterministic emission; `k in obj`
is key membership, `obj[k] = v` updates in place or appends, and
`Object.entries` iterates in insertion order.  The snapshot provider
(`getSchema`) is an external collaborator: each extension descriptor is
modelled as an optional identifier paired with the providers result for
that descriptor, fallible results being `Except String Schema`.
-/

namespace BetterAuthGen

/-- One schema field attribute (`DBFieldAttribute`): scalar kind, required
flag, and optional on-wire field-name override. -/
structure FieldAttr where
  type : String
  required : Bool
  fieldName : Option String
deriving DecidableEq, Repr

/-- Field record of one entity: field key to attribute, insertion ordered. -/
abbrev Fields := List (String × FieldAttr)

/-- One entity entry of a snapshot (`{ fields: Record<string, DBFieldAttribute> }`). -/
structure SchemaEntry where
  fields : Fields
deriving DecidableEq, Repr

/-- A schema snapshot: entity name to its fields record
(`Record<string, { fields: Record<string, DBFieldAttribute> }>`). -/
abbrev Schema := List (String × SchemaEntry)

/-- Per-model plugin additions: model name to (plugin id to added fields),
mirroring `Record<string, Record<string, Record<string, DBFieldAttribute>>>`. -/
abbrev PluginAdds := List (String × List (String × Fields))

/-- Lookup of a key in a JavaScript object modelled as an association list. -/
def assocGet {α : Type} : List (String × α) → String → Option α
  | [], _ => none
  | (k1, v) :: rest, k => if k1 = k then some v else assocGet rest k

/-- Key-membership test, the JavaScript `k in obj`. -/
def hasKey {α : Type} (l : List (String × α)) (k : String) : Bool :=
  l.any (fun p => p.1 == k)

/-- Assignment `obj[k] = v` on a JavaScript object: update in place when the
key exists, append otherwise. -/
def assocSet {α : Type} : List (String × α) → String → α → List (String × α)
  | [], k, v => [(k, v)]
  | (k1, v1) :: rest, k, v =>
      if k1 = k then (k1, v) :: rest else (k1, v1) :: assocSet rest k v

/-- The expression `base[m]?.fields ?? \x7b\x7d` of the source. -/
def baseFieldsOf (base : Schema) (m : String) : Fields :=
  ((assocGet base m).map SchemaEntry.fields).getD []

/-- JavaScript `Set` insertion: collect list elements, first occurrence only. -/
def dedupAcc (acc : List String) : List String → List String
  | [] => acc
  | x :: rest => dedupAcc (if x ∈ acc then acc else acc ++ [x]) rest

/-- Map Better Auth field types to TypeScript types (`mapType`); the
`switch` with a `default` arm is an if-chain ending in `unknown`. -/
def mapType (t : String) : String :=
  if t = "boolean" then "boolean"
  else if t = "date" then "Date"
  else if t = "number" then "number"
  else if t = "string" then "string"
  else if t = "number[]" then "number[]"
  else if t = "string[]" then "string[]"
  else "unknown"

/-- First-character uppercasing, JavaScript
`p.charAt(0).toUpperCase() + p.slice(1)`. -/
def capitalize1 (s : String) : String :=
  match s.data with
  | [] => ""
  | c :: rest => String.mk (c.toUpper :: rest)

/-- Character-level string split, the semantics of the JavaScript
`s.split(/[-_]/g)` regex split: separators delimit (possibly empty)
groups. -/
def splitChars (p : Char → Bool) : List Char → List (List Char)
  | [] => [[]]
  | c :: rest =>
      if p c then [] :: splitChars p rest
      else
        match splitChars p rest with
        | [] => [[c]]
        | g :: gs => (c :: g) :: gs

/-- Convert string to PascalCase (`pascal`): split on `-` and `_`,
capitalize each segment, join. -/
def pascal (s : String) : String :=
  String.join ((splitChars (fun c => c = '-' || c = '_') s.data).map
    (fun g => capitalize1 (String.mk g)))

/-- Hexadecimal digit, lowercase, for JSON control-character escapes. -/
def hexDigit (n : Nat) : Char :=
  if n < 10 then Char.ofNat (48 + n) else Char.ofNat (87 + n)

/-- Escape of one character under `JSON.stringify`. -/
def jsonEscapeChar (c : Char) : String :=
  if c = '"' then "\\\""
  else if c = '\\' then "\\\\"
  else if c = '\n' then "\\n"
  else if c = '\t' then "\\t"
  else if c = '\r' then "\\r"
  else if c = '\x08' then "\\b"
  else if c = '\x0c' then "\\f"
  else if c.toNat < 32 then
    String.mk ['\\', 'u', '0', '0', hexDigit (c.toNat / 16), hexDigit (c.toNat % 16)]
  else String.singleton c

/-- JSON serialisation of a string value (`JSON.stringify`). -/
def jsonStringify (s : String) : String :=
  "\"" ++ String.join (s.data.map jsonEscapeChar) ++ "\""

/-- The filter predicate of `diff` for one entity: keep a field exactly when
its key is absent from the base fields of that entity. -/
def addedFields (base : Schema) (m : String) (e : SchemaEntry) : Fields :=
  e.fields.filter (fun kf => ! hasKey (baseFieldsOf base m) kf.1)

/-- Loop of `diff`, accumulating the result object `d`. -/
def diffAux (base : Schema) (d : List (String × Fields)) : Schema → List (String × Fields)
  | [] => d
  | (m, e) :: rest =>
      let added := addedFields base m e
      diffAux base (if added.length ≠ 0 then assocSet d m added else d) rest

/-- Find fields added by a plugin compared to base schema (`diff`): for each
entity of the target snapshot keep the fields whose keys are not in the base
entity, recording the entity only when something was added. -/
def diff (base target : Schema) : List (String × Fields) :=
  diffAux base [] target

/-- Merge one extensions additions into the aggregate table:
`pluginAdds[m] ??= \x7b\x7d; pluginAdds[m][id] = f` for each entity of the diff. -/
def mergeAdds (pa : PluginAdds) (id : String) (adds : List (String × Fields)) : PluginAdds :=
  adds.foldl (fun pa mf => assocSet pa mf.1 (assocSet ((assocGet pa mf.1).getD []) id mf.2)) pa

/-- The aggregation loop over extension descriptors, also recording the
sequence of snapshot-provider calls.  A descriptor is `(idOpt, snap)`:
its optional id and the result of resolving its snapshot.  Descriptors
whose id is missing, empty, or already seen are skipped before the
provider result is consulted (`if (!id || seen.has(id)) continue`);
otherwise the provider is called, and a thrown error aborts the run. -/
def aggregateTrace (base : Schema) :
    List (Option String × Except String Schema) → List String → PluginAdds →
    List String × Except String (List String × PluginAdds)
  | [], seen, adds => ([], Except.ok (seen, adds))
  | (idOpt, snap) :: rest, seen, adds =>
      match idOpt with
      | none => aggregateTrace base rest seen adds
      | some id =>
          if id = "" ∨ id ∈ seen then aggregateTrace base rest seen adds
          else
            match snap with
            | Except.error e => ([id], Except.error e)
            | Except.ok s =>
                let r := aggregateTrace base rest (seen ++ [id]) (mergeAdds adds id (diff base s))
                (id :: r.1, r.2)

/-- Emission of one fields record body, the loop
`fieldName = f.fieldName ?? k; optional = f.required ? : ?` of the source,
shared by the base, plugin and flat blocks (identical loop bodies). -/
def emitFields (indent : String) (flds : Fields) : String :=
  flds.foldl (fun out kf =>
    let fieldName := kf.2.fieldName.getD kf.1
    let optional := if kf.2.required then "" else "?"
    out ++ indent ++ fieldName ++ optional ++ ": " ++ mapType kf.2.type ++ "\n") ""

/-- The members of the combined intersection type (source lines building
`parts`): the base-fields type name when base fields exist, then one entry
per plugin id, an indexed access into the plugin map when `needPluginMap`
holds and the defensive literal `never` otherwise. -/
def intersectionParts (P : String) (baseF : Fields)
    (pluginsForModel : List (String × Fields)) : List String :=
  let pluginIds := pluginsForModel.map Prod.fst
  let needPluginMap : Bool := decide (pluginIds.length > 1) || decide (baseF.length ≠ 0)
  (if baseF.length ≠ 0 then ["Base" ++ P ++ "Fields"] else []) ++
  (if pluginIds.length ≠ 0 then
      pluginIds.map (fun id =>
        if needPluginMap then P ++ "PluginFields[" ++ jsonStringify id ++ "]" else "never")
    else [])

/-- Emission for one model given its PascalCase name, its base fields and
its per-plugin additions (the body of the per-model loop of `generate`). -/
def emitModelCore (P : String) (baseF : Fields)
    (pluginsForModel : List (String × Fields)) : String :=
  let pluginIds := pluginsForModel.map Prod.fst
  let baseBlock :=
    if baseF.length ≠ 0 then
      "export type Base" ++ P ++ "Fields = \x7b\n" ++ emitFields "  " baseF ++ "\x7d\n\n"
    else ""
  let needPluginMap : Bool := decide (pluginIds.length > 1) || decide (baseF.length ≠ 0)
  let pluginMapBlock :=
    if needPluginMap && decide (pluginIds.length ≠ 0) then
      "export type " ++ P ++ "PluginFields = \x7b\n" ++
        pluginsForModel.foldl (fun out pf =>
          out ++ "  " ++ jsonStringify pf.1 ++ ": \x7b\n" ++
            emitFields "    " pf.2 ++ "  \x7d\n") "" ++
        "\x7d\n\n"
    else ""
  if baseF.length = 0 ∧ pluginIds.length = 1 then
    let only := pluginIds.headD ""
    let onlyFields := (assocGet pluginsForModel only).getD []
    baseBlock ++ pluginMapBlock ++
      "export type " ++ P ++ "Fields = \x7b\n" ++ emitFields "  " onlyFields ++ "\x7d\n\n" ++
      "export type " ++ P ++ " = " ++ P ++ "Fields\n\n"
  else
    baseBlock ++ pluginMapBlock ++
      "export type " ++ P ++ " = " ++
        String.intercalate " & " (intersectionParts P baseF pluginsForModel) ++ "\n\n"

/-- Emission for one model of the aggregate state, computing the three
per-model constants of the source loop. -/
def emitModel (base : Schema) (adds : PluginAdds) (model : String) : String :=
  emitModelCore (pascal model) (baseFieldsOf base model) ((assocGet adds model).getD [])

/-- The `models` set: the union of base entity names and names with plugin
additions, in insertion order (`new Set([...keys(base), ...keys(adds)])`). -/
def modelsOf (base : Schema) (adds : PluginAdds) : List String :=
  dedupAcc [] (base.map Prod.fst ++ adds.map Prod.fst)

/-- The fixed header comment of the generated artifact. -/
def header : String :=
  "/**\n * Auto-generated Better Auth types.\n * DO NOT EDIT - Run `pnpm generate:types` to regenerate.\n *\n * Generated from Better Auth schema introspection.\n * Contains types for all supported plugins and their field additions.\n */\n\n"

/-- The trailing blocks of the artifact: plugin-id union, master
entity-to-type mapping, and the model-key union. -/
def emitTail (seen : List String) (models : List String) : String :=
  "/**\n * Union of all supported plugin identifiers.\n */\nexport type PluginId = " ++
    String.intercalate " | " (seen.map jsonStringify) ++ "\n\n" ++
  "/**\n * Complete schema mapping of all models to their types.\n */\nexport type BetterAuthFullSchema = \x7b\n" ++
    models.foldl (fun out model => out ++ "  " ++ jsonStringify model ++ ": " ++ pascal model ++ "\n") "" ++
  "\x7d\n\n" ++
  "/**\n * Union of all model names in the schema.\n */\nexport type ModelKey = keyof BetterAuthFullSchema\n"

/-- Full emission given the aggregate state (`seen` plugin ids and the
additions table), over all models. -/
def emitAll (base : Schema) (seen : List String) (adds : PluginAdds) : String :=
  let models := modelsOf base adds
  header ++ models.foldl (fun out m => out ++ emitModel base adds m) "" ++
    emitTail seen models

/-- Generate TypeScript type definitions (`generate`), parameterised by the
resolved base snapshot and the ordered descriptor list; a provider error
aborts the whole run with no output. -/
def generate (base : Schema) (exts : List (Option String × Except String Schema)) :
    Except String String :=
  match (aggregateTrace base exts [] []).2 with
  | Except.error e => Except.error e
  | Except.ok sa => Except.ok (emitAll base sa.1 sa.2)

/-- The output text of a run, empty on abort (used only to state concrete
facts about successful outputs). -/
def outputOf (r : Except String String) : String :=
  match r with
  | Except.ok s => s
  | Except.error _ => ""

/-- Membership of one character list as a contiguous infix of another. -/
def isSub (needle : List Char) : List Char → Bool
  | [] => needle.isEmpty
  | c :: rest => decide (needle <+: (c :: rest)) || isSub needle rest

/-- Substring containment on strings. -/
def strContains (s sub : String) : Bool :=
  isSub sub.data s.data

/-- Descriptors surviving first-occurrence deduplication, starting from an
already-seen id set: a descriptor is kept exactly when the aggregation loop
would process it. -/
def firstOccAux {α : Type} (seen : List String) :
    List (Option String × α) → List (Option String × α)
  | [] => []
  | (idOpt, s) :: rest =>
      match idOpt with
      | none => firstOccAux seen rest
      | some id =>
          if id = "" ∨ id ∈ seen then firstOccAux seen rest
          else (some id, s) :: firstOccAux (seen ++ [id]) rest

/-- The distinct valid ids of a descriptor list in first-occurrence order,
relative to an already-seen set. -/
def newIds {α : Type} (seen : List String) : List (Option String × α) → List String
  | [] => []
  | (idOpt, _) :: rest =>
      match idOpt with
      | none => newIds seen rest
      | some id =>
          if id = "" ∨ id ∈ seen then newIds seen rest
          else id :: newIds (seen ++ [id]) rest

/-- Sample descriptor list: a valid extension, a duplicate of it whose
snapshot resolution throws, a descriptor without an id, and a second valid
extension. -/
def dupDescriptors : List (Option String × Except String Schema) :=
  [(some "a", Except.ok []), (some "a", Except.error "boom"),
   (none, Except.ok []), (some "b", Except.ok [])]

/-! Helper lemmas about the association-list object model. -/

theorem assocGet_eq_none_of_not_mem {α : Type} {l : List (String × α)} {m : String}
    (h : m ∉ l.map Prod.fst) : assocGet l m = none := by
  induction l with
  | nil => rfl
  | cons hd tl ih =>
      simp only [List.map_cons, List.mem_cons] at h
      push_neg at h
      simp only [assocGet]
      rw [if_neg (fun he => h.1 he.symm), ih h.2]

theorem assocGet_assocSet_self {α : Type} (l : List (String × α)) (k : String) (v : α) :
    assocGet (assocSet l k v) k = some v := by
  induction l with
  | nil => simp [assocSet, assocGet]
  | cons hd tl ih =>
      by_cases h : hd.1 = k
      · simp [assocSet, assocGet, h]
      · simp [assocSet, assocGet, h, ih]

theorem assocGet_assocSet_ne {α : Type} (l : List (String × α)) {k m : String}
    (h : k ≠ m) (v : α) : assocGet (assocSet l k v) m = assocGet l m := by
  induction l with
  | nil => simp [assocSet, assocGet, h]
  | cons hd tl ih =>
      by_cases h1 : hd.1 = k
      · simp [assocSet, assocGet, h1, h]
      · simp only [assocSet, if_neg h1]
        by_cases h2 : hd.1 = m
        · simp [assocGet, h2]
        · simp [assocGet, h2, ih]

theorem not_mem_keys_assocSet {α : Type} {l : List (String × α)} {k m : String}
    (hne : m ≠ k) (h : m ∉ l.map Prod.fst) (v : α) :
    m ∉ (assocSet l k v).map Prod.fst := by
  induction l with
  | nil => simpa [assocSet] using fun he => hne he
  | cons hd tl ih =>
      simp only [List.map_cons, List.mem_cons] at h
      push_neg at h
      by_cases h1 : hd.1 = k
      · simp only [assocSet, if_pos h1, List.map_cons, List.mem_cons]
        push_neg
        exact ⟨h.1, h.2⟩
      · simp only [assocSet, if_neg h1, List.map_cons, List.mem_cons]
        push_neg
        exact ⟨h.1, ih h.2⟩

theorem mem_dedupAcc {m : String} : ∀ (l acc : List String),
    m ∈ dedupAcc acc l ↔ m ∈ acc ∨ m ∈ l := by
  intro l
  induction l with
  | nil => intro acc; simp [dedupAcc]
  | cons x rest ih =>
      intro acc
      simp only [dedupAcc]
      rw [ih]
      by_cases hx : x ∈ acc
      · simp only [if_pos hx, List.mem_cons]
        constructor
        · rintro (h | h)
          · exact Or.inl h
          · exact Or.inr (Or.inr h)
        · rintro (h | h | h)
          · exact Or.inl h
          · exact Or.inl (h ▸ hx)
          · exact Or.inr h
      · simp only [if_neg hx, List.mem_append, List.mem_singleton, List.mem_cons]
        tauto

/-! Characterisation of `diff`. -/

theorem diffAux_step_get {m m1 : String} (hm : m1 ≠ m)
    (d : List (String × Fields)) (added : Fields) :
    assocGet (if added.length ≠ 0 then assocSet d m1 added else d) m = assocGet d m := by
  by_cases hz : added.length ≠ 0
  · rw [if_pos hz, assocGet_assocSet_ne _ hm]
  · rw [if_neg hz]

theorem diffAux_get_of_none (base : Schema) (m : String) :
    ∀ (target : Schema) (d : List (String × Fields)),
    assocGet target m = none →
    assocGet (diffAux base d target) m = assocGet d m := by
  intro target
  induction target with
  | nil => intro d _; rfl
  | cons hd tl ih =>
      intro d h
      obtain ⟨m1, e1⟩ := hd
      simp only [assocGet] at h
      by_cases hm : m1 = m
      · rw [if_pos hm] at h; exact absurd h (by simp)
      · rw [if_neg hm] at h
        simp only [diffAux]
        rw [ih _ h, diffAux_step_get hm]

theorem diffAux_get_of_some (base : Schema) (m : String) :
    ∀ (target : Schema) (d : List (String × Fields)) (e : SchemaEntry),
    (target.map Prod.fst).Nodup →
    assocGet target m = some e →
    assocGet (diffAux base d target) m =
      if (addedFields base m e).length = 0 then assocGet d m
      else some (addedFields base m e) := by
  intro target
  induction target with
  | nil => intro d e _ h; exact absurd h (by simp [assocGet])
  | cons hd tl ih =>
      intro d e hnd h
      obtain ⟨m1, e1⟩ := hd
      simp only [List.map_cons, List.nodup_cons] at hnd
      simp only [assocGet] at h
      by_cases hm : m1 = m
      · rw [if_pos hm] at h
        have he : e1 = e := Option.some.inj h
        subst he
        have hnotm : m ∉ tl.map Prod.fst := hm ▸ hnd.1
        have htl : assocGet tl m = none := assocGet_eq_none_of_not_mem hnotm
        simp only [diffAux]
        rw [diffAux_get_of_none base m tl _ htl]
        rw [hm]
        by_cases hz : (addedFields base m e1).length = 0
        · rw [if_pos hz, if_neg (fun hc => hc hz)]
        · rw [if_neg hz, if_pos hz, assocGet_assocSet_self]
      · rw [if_neg hm] at h
        simp only [diffAux]
        rw [ih _ e hnd.2 h, diffAux_step_get hm]

/-- Claim C1: for every base snapshot and single-extension snapshot, `diff`
returns, for each entity of the extension snapshot, exactly the subset of
its fields whose keys are absent from the base fields of that entity
(key membership only, so a redefined field is excluded), omitting entities
that contribute nothing; moreover when the entity is absent from the base,
all of its fields are kept. -/
theorem diff_newfields_only (base target : Schema)
    (hnd : (target.map Prod.fst).Nodup) (m : String) :
    (assocGet (diff base target) m =
      match assocGet target m with
      | some e =>
          if (addedFields base m e).length = 0 then none
          else some (e.fields.filter (fun kf => ! hasKey (baseFieldsOf base m) kf.1))
      | none => none) ∧
    (∀ e : SchemaEntry, assocGet base m = none → addedFields base m e = e.fields) := by
  constructor
  · cases h : assocGet target m with
    | none =>
        simp only []
        rw [diff, diffAux_get_of_none base m target [] h]
        rfl
    | some e =>
        simp only []
        rw [diff, diffAux_get_of_some base m target [] e hnd h]
        simp [addedFields, assocGet]
  · intro e hnone
    simp [addedFields, baseFieldsOf, hnone, hasKey]

theorem diff_newfields_only_witness :
    (([("user", SchemaEntry.mk [("email", FieldAttr.mk "number" false none),
        ("banned", FieldAttr.mk "boolean" false none)]),
       ("jwks", SchemaEntry.mk [("publicKey", FieldAttr.mk "string" true none)])].map
        Prod.fst).Nodup) ∧
    assocGet (diff [("user", SchemaEntry.mk [("email", FieldAttr.mk "string" true none)])]
        [("user", SchemaEntry.mk [("email", FieldAttr.mk "number" false none),
            ("banned", FieldAttr.mk "boolean" false none)]),
         ("jwks", SchemaEntry.mk [("publicKey", FieldAttr.mk "string" true none)])]) "user" =
      some [("banned", FieldAttr.mk "boolean" false none)] := by
  refine ⟨by decide, ?_⟩
  have h := (diff_newfields_only
    [("user", SchemaEntry.mk [("email", FieldAttr.mk "string" true none)])]
    [("user", SchemaEntry.mk [("email", FieldAttr.mk "number" false none),
        ("banned", FieldAttr.mk "boolean" false none)]),
     ("jwks", SchemaEntry.mk [("publicKey", FieldAttr.mk "string" true none)])]
    (by decide) "user").1
  rw [h]
  decide

/-! Aggregation lemmas: deduplication, call traces, error propagation. -/

theorem aggregateTrace_firstOcc (base : Schema) :
    ∀ (exts : List (Option String × Except String Schema)) (seen : List String)
      (adds : PluginAdds),
    aggregateTrace base exts seen adds =
      aggregateTrace base (firstOccAux seen exts) seen adds := by
  intro exts
  induction exts with
  | nil => intro seen adds; rfl
  | cons hd rest ih =>
      intro seen adds
      obtain ⟨idOpt, snap⟩ := hd
      cases idOpt with
      | none =>
          simp only [aggregateTrace, firstOccAux]
          exact ih seen adds
      | some id =>
          by_cases hskip : id = "" ∨ id ∈ seen
          · simp only [aggregateTrace, firstOccAux, if_pos hskip]
            exact ih seen adds
          · simp only [firstOccAux, if_neg hskip]
            cases snap with
            | error e => simp only [aggregateTrace, if_neg hskip]
            | ok s =>
                simp only [aggregateTrace, if_neg hskip]
                rw [ih]

theorem aggregateTrace_calls_of_ok (base : Schema) :
    ∀ (exts : List (Option String × Except String Schema)) (seen : List String)
      (adds : PluginAdds) (r : List String × PluginAdds),
    (aggregateTrace base exts seen adds).2 = Except.ok r →
    (aggregateTrace base exts seen adds).1 = newIds seen exts := by
  intro exts
  induction exts with
  | nil => intro seen adds r _; rfl
  | cons hd rest ih =>
      intro seen adds r h
      obtain ⟨idOpt, snap⟩ := hd
      cases idOpt with
      | none =>
          simp only [aggregateTrace, newIds] at h ⊢
          exact ih seen adds r h
      | some id =>
          by_cases hskip : id = "" ∨ id ∈ seen
          · simp only [aggregateTrace, newIds, if_pos hskip] at h ⊢
            exact ih seen adds r h
          · cases snap with
            | error e =>
                simp only [aggregateTrace, if_neg hskip] at h
                exact absurd h (by simp)
            | ok s =>
                simp only [aggregateTrace, newIds, if_neg hskip] at h ⊢
                rw [ih _ _ r h]

theorem aggregateTrace_error_src (base : Schema) :
    ∀ (exts : List (Option String × Except String Schema)) (seen : List String)
      (adds : PluginAdds) (e : String),
    (aggregateTrace base exts seen adds).2 = Except.error e →
    ∃ id, (some id, (Except.error e : Except String Schema)) ∈ exts := by
  intro exts
  induction exts with
  | nil => intro seen adds e h; simp [aggregateTrace] at h
  | cons hd rest ih =>
      intro seen adds e h
      obtain ⟨idOpt, snap⟩ := hd
      cases idOpt with
      | none =>
          simp only [aggregateTrace] at h
          obtain ⟨id, hid⟩ := ih seen adds e h
          exact ⟨id, List.mem_cons_of_mem _ hid⟩
      | some id =>
          by_cases hskip : id = "" ∨ id ∈ seen
          · simp only [aggregateTrace, if_pos hskip] at h
            obtain ⟨i, hi⟩ := ih seen adds e h
            exact ⟨i, List.mem_cons_of_mem _ hi⟩
          · cases snap with
            | error e1 =>
                simp only [aggregateTrace, if_neg hskip] at h
                obtain rfl : e1 = e := Except.error.inj h
                exact ⟨id, List.mem_cons_self _ _⟩
            | ok s =>
                simp only [aggregateTrace, if_neg hskip] at h
                obtain ⟨i, hi⟩ := ih _ _ e h
                exact ⟨i, List.mem_cons_of_mem _ hi⟩

theorem generate_error_iff (base : Schema)
    (exts : List (Option String × Except String Schema)) (e : String) :
    generate base exts = Except.error e ↔
      (aggregateTrace base exts [] []).2 = Except.error e := by
  unfold generate
  cases hq : (aggregateTrace base exts [] []).2 with
  | error e1 => simp
  | ok sa => simp

/-- Claim C2: the generator is deterministic — two runs on identical resolved
inputs (same base snapshot, same ordered descriptor list with the same
per-extension snapshots) return identical output text.  The embedding is a
pure function of these inputs because the source relies only on
insertion-ordered object and set iteration. -/
theorem generate_deterministic (b1 b2 : Schema)
    (e1 e2 : List (Option String × Except String Schema))
    (hb : b1 = b2) (he : e1 = e2) : generate b1 e1 = generate b2 e2 := by
  rw [hb, he]

theorem generate_deterministic_witness :
    generate [("user", SchemaEntry.mk [("email", FieldAttr.mk "string" true none)])]
        [(some "admin", Except.ok [])] =
      generate [("user", SchemaEntry.mk [("email", FieldAttr.mk "string" true none)])]
        [(some "admin", Except.ok [])] :=
  generate_deterministic _ _ _ _ rfl rfl

/-- Claim C3, counterexample: the provider fails for extension `admin` with
the error text `boom`; the run aborts and surfaces exactly `boom`, which
does not include the identifier of the failing extension — contradicting
the claim that the surfaced error includes that identifier. -/
theorem generate_error_omits_extension_id :
    generate [] [(some "admin", Except.error "boom")] = Except.error "boom" ∧
    strContains "boom" "admin" = false :=
  ⟨rfl, rfl⟩

/-- Claim C3, amended: if the snapshot provider throws while resolving an
extension snapshot, the entire run aborts with no output, and the error
surfaced to the caller is exactly the error the provider threw for one of
the descriptors — the generator does not attach the failing extension
identifier to it. -/
theorem generate_error_is_provider_error (base : Schema)
    (exts : List (Option String × Except String Schema)) (e : String)
    (h : generate base exts = Except.error e) :
    ∃ id, (some id, (Except.error e : Except String Schema)) ∈ exts :=
  aggregateTrace_error_src base exts [] [] e ((generate_error_iff base exts e).mp h)

theorem generate_error_is_provider_error_witness :
    ∃ id, (some id, (Except.error "boom" : Except String Schema)) ∈
      [(some "admin", (Except.error "boom" : Except String Schema))] :=
  generate_error_is_provider_error [] [(some "admin", Except.error "boom")] "boom" rfl

/-- Claim C5: rerunning the generator on a descriptor list is identical to
running it on the sublist that keeps only the first occurrence of each
(nonempty) identifier: later duplicates are silently skipped, so their
field contributions appear nowhere in the output and they can raise no
error. -/
theorem duplicate_ids_first_occurrence_wins (base : Schema)
    (exts : List (Option String × Except String Schema)) :
    generate base exts = generate base (firstOccAux [] exts) := by
  unfold generate
  rw [aggregateTrace_firstOcc base exts]

/-- Claim C10: deduplication happens before the snapshot call.  On a
successful run the provider-call sequence is exactly one call per distinct
valid identifier, in first-occurrence order; and the whole run (trace and
result) is unchanged by deleting the skipped descriptors, so a duplicate
descriptor whose snapshot resolution would throw cannot abort the run. -/
theorem provider_called_once_per_distinct_id (base : Schema)
    (exts : List (Option String × Except String Schema))
    (r : List String × PluginAdds)
    (h : (aggregateTrace base exts [] []).2 = Except.ok r) :
    (aggregateTrace base exts [] []).1 = newIds [] exts ∧
    aggregateTrace base exts [] [] = aggregateTrace base (firstOccAux [] exts) [] [] :=
  ⟨aggregateTrace_calls_of_ok base exts [] [] r h, aggregateTrace_firstOcc base exts [] []⟩

theorem provider_called_once_per_distinct_id_witness :
    (aggregateTrace [] dupDescriptors [] []).1 = newIds [] dupDescriptors ∧
    aggregateTrace [] dupDescriptors [] [] =
      aggregateTrace [] (firstOccAux [] dupDescriptors) [] [] :=
  provider_called_once_per_distinct_id [] dupDescriptors (["a", "b"], []) rfl

/-! Key-absence through aggregation, for claim C4. -/

theorem not_mem_keys_mergeAdds {m : String} (id : String) :
    ∀ (adds : List (String × Fields)) (pa : PluginAdds),
    m ∉ pa.map Prod.fst → m ∉ adds.map Prod.fst →
    m ∉ (mergeAdds pa id adds).map Prod.fst := by
  intro adds
  induction adds with
  | nil => intro pa h1 _; simpa [mergeAdds] using h1
  | cons hd tl ih =>
      intro pa h1 h2
      obtain ⟨m1, f1⟩ := hd
      simp only [List.map_cons, List.mem_cons] at h2
      push_neg at h2
      show m ∉ (mergeAdds (assocSet pa m1
        (assocSet ((assocGet pa m1).getD []) id f1)) id tl).map Prod.fst
      exact ih _ (not_mem_keys_assocSet h2.1 h1 _) h2.2

theorem aggregateTrace_adds_not_mem (base : Schema) (m : String) :
    ∀ (exts : List (Option String × Except String Schema)) (seen : List String)
      (adds0 : PluginAdds) (r : List String × PluginAdds),
    m ∉ adds0.map Prod.fst →
    (∀ i s, (some i, Except.ok s) ∈ exts → m ∉ (diff base s).map Prod.fst) →
    (aggregateTrace base exts seen adds0).2 = Except.ok r →
    m ∉ r.2.map Prod.fst := by
  intro exts
  induction exts with
  | nil =>
      intro seen adds0 r h0 _ hr
      have : (seen, adds0) = r := by simpa [aggregateTrace] using hr
      rw [← this]
      exact h0
  | cons hd rest ih =>
      intro seen adds0 r h0 hx hr
      obtain ⟨idOpt, snap⟩ := hd
      cases idOpt with
      | none =>
          simp only [aggregateTrace] at hr
          exact ih seen adds0 r h0 (fun i s hm => hx i s (List.mem_cons_of_mem _ hm)) hr
      | some id =>
          by_cases hskip : id = "" ∨ id ∈ seen
          · simp only [aggregateTrace, if_pos hskip] at hr
            exact ih seen adds0 r h0 (fun i s hm => hx i s (List.mem_cons_of_mem _ hm)) hr
          · cases snap with
            | error e =>
                simp only [aggregateTrace, if_neg hskip] at hr
                exact absurd hr (by simp)
            | ok s =>
                simp only [aggregateTrace, if_neg hskip] at hr
                refine ih (seen ++ [id]) (mergeAdds adds0 id (diff base s)) r ?_
                  (fun i s2 hm => hx i s2 (List.mem_cons_of_mem _ hm)) hr
                exact not_mem_keys_mergeAdds id (diff base s) adds0 h0
                  (hx id s (List.mem_cons_self _ _))

set_option maxRecDepth 8192 in
/-- Claim C4, counterexample: an entity (`x`) present in the base snapshot
with an empty field set and receiving no extension contributions is still
emitted — it gets a degenerate declaration block `export type X = ` and a
key in the master entity-to-type mapping, contradicting the claim that such
an entity never appears in the output. -/
theorem empty_base_entity_is_emitted :
    strContains (outputOf (generate [("x", SchemaEntry.mk [])] []))
      ("  " ++ jsonStringify "x" ++ ": X\n") = true ∧
    strContains (outputOf (generate [("x", SchemaEntry.mk [])] []))
      "export type X = " = true :=
  ⟨by decide, by decide⟩

/-- Claim C4, amended: an entity that is absent from the base snapshot key
set and to which no processed extension diff contributes fields is never
emitted — it is not in the models list, from which every declaration block,
every master-mapping key and hence every member of the derived entity-name
union is generated.  (An entity present in the base with an empty field set
is, by contrast, emitted as a degenerate empty type with a mapping key.) -/
theorem absent_entity_never_emitted (base : Schema)
    (exts : List (Option String × Except String Schema))
    (r : List String × PluginAdds) (m : String)
    (hr : (aggregateTrace base exts [] []).2 = Except.ok r)
    (hb : m ∉ base.map Prod.fst)
    (hx : ∀ i s, (some i, Except.ok s) ∈ exts → m ∉ (diff base s).map Prod.fst) :
    m ∉ modelsOf base r.2 := by
  have hadds := aggregateTrace_adds_not_mem base m exts [] [] r (by simp) hx hr
  intro hmem
  rw [modelsOf] at hmem
  rcases (mem_dedupAcc _ _).mp hmem with h | h
  · simp at h
  · rcases List.mem_append.mp h with h | h
    · exact hb h
    · exact hadds h

theorem absent_entity_never_emitted_witness :
    "ghost" ∉ modelsOf
      [("user", SchemaEntry.mk [("email", FieldAttr.mk "string" true none)])]
      ([] : PluginAdds) :=
  absent_entity_never_emitted
    [("user", SchemaEntry.mk [("email", FieldAttr.mk "string" true none)])]
    [] ([], []) "ghost" rfl (by decide) (fun i s h => absurd h (by simp))

/-! Emission lemmas, for claims C6, C7, C8, C9. -/

theorem intercalate_singleton (s a : String) : String.intercalate s [a] = a := rfl

theorem emitModelCore_base_only (P : String) (f : String × FieldAttr) (fs : Fields) :
    emitModelCore P (f :: fs) [] =
      "export type Base" ++ P ++ "Fields = \x7b\n" ++ emitFields "  " (f :: fs) ++ "\x7d\n\n" ++
      "export type " ++ P ++ " = " ++ ("Base" ++ P ++ "Fields") ++ "\n\n" := by
  simp [emitModelCore, intersectionParts, intercalate_singleton, String.append_assoc]
  try rfl

theorem emitModelCore_single_plugin (P i : String) (flds : Fields) :
    emitModelCore P [] [(i, flds)] =
      "export type " ++ P ++ "Fields = \x7b\n" ++ emitFields "  " flds ++ "\x7d\n\n" ++
      "export type " ++ P ++ " = " ++ (P ++ "Fields") ++ "\n\n" := by
  simp [emitModelCore, assocGet, String.append_assoc, String.empty_append]
  try rfl

/-- Claim C7: an entity with base fields and no contributing extensions is
emitted as its base-fields block followed by a merged type that is exactly
the base-fields type (a one-member intersection, so a bare reference to
`Base<P>Fields`); in particular no plugin-fields mapping type is emitted
for it. -/
theorem base_only_entity_alias (base : Schema) (adds : PluginAdds) (m : String)
    (f : String × FieldAttr) (fs : Fields)
    (hbase : baseFieldsOf base m = f :: fs)
    (hext : (assocGet adds m).getD [] = []) :
    emitModel base adds m =
      "export type Base" ++ pascal m ++ "Fields = \x7b\n" ++
        emitFields "  " (baseFieldsOf base m) ++ "\x7d\n\n" ++
      "export type " ++ pascal m ++ " = " ++ ("Base" ++ pascal m ++ "Fields") ++ "\n\n" := by
  rw [emitModel, hext, hbase]
  exact emitModelCore_base_only (pascal m) f fs

theorem base_only_entity_alias_witness :
    emitModel [("user", SchemaEntry.mk [("email", FieldAttr.mk "string" true none)])] [] "user" =
      "export type Base" ++ pascal "user" ++ "Fields = \x7b\n" ++
        emitFields "  " (baseFieldsOf
          [("user", SchemaEntry.mk [("email", FieldAttr.mk "string" true none)])] "user") ++
        "\x7d\n\n" ++
      "export type " ++ pascal "user" ++ " = " ++
        ("Base" ++ pascal "user" ++ "Fields") ++ "\n\n" :=
  base_only_entity_alias
    [("user", SchemaEntry.mk [("email", FieldAttr.mk "string" true none)])] [] "user"
    ("email", FieldAttr.mk "string" true none) [] rfl rfl

/-- Claim C6: an entity with no base fields and exactly one contributing
extension is emitted as a flat fields type holding exactly that extensions
delta fields — no plugin-fields wrapper — and the merged entity type is a
bare alias of that flat type, never an intersection. -/
theorem single_extension_entity_flat_alias (base : Schema) (adds : PluginAdds)
    (m i : String) (flds : Fields)
    (hbase : baseFieldsOf base m = [])
    (hext : (assocGet adds m).getD [] = [(i, flds)]) :
    emitModel base adds m =
      "export type " ++ pascal m ++ "Fields = \x7b\n" ++ emitFields "  " flds ++ "\x7d\n\n" ++
      "export type " ++ pascal m ++ " = " ++ (pascal m ++ "Fields") ++ "\n\n" := by
  rw [emitModel, hext, hbase]
  exact emitModelCore_single_plugin (pascal m) i flds

theorem single_extension_entity_flat_alias_witness :
    emitModel [] [("jwks", [("jwt", [("publicKey", FieldAttr.mk "string" true none)])])]
        "jwks" =
      "export type " ++ pascal "jwks" ++ "Fields = \x7b\n" ++
        emitFields "  " [("publicKey", FieldAttr.mk "string" true none)] ++ "\x7d\n\n" ++
      "export type " ++ pascal "jwks" ++ " = " ++ (pascal "jwks" ++ "Fields") ++ "\n\n" :=
  single_extension_entity_flat_alias []
    [("jwks", [("jwt", [("publicKey", FieldAttr.mk "string" true none)])])]
    "jwks" "jwt" [("publicKey", FieldAttr.mk "string" true none)] rfl rfl

/-- Claim C8: the type-mapping function is total, and every scalar kind
outside the mapped vocabulary (the six switch cases, plus `unknown` which
also maps to itself through the default arm) falls back to the `unknown`
target type — never an error. -/
theorem mapType_total_unknown_fallback (t : String)
    (h : t ∉ ["boolean", "date", "number", "string", "number[]", "string[]", "unknown"]) :
    mapType t = "unknown" := by
  simp only [List.mem_cons, List.not_mem_nil, or_false] at h
  push_neg at h
  obtain ⟨h1, h2, h3, h4, h5, h6, _⟩ := h
  simp [mapType, h1, h2, h3, h4, h5, h6]

theorem mapType_total_unknown_fallback_witness :
    "json" ∉ ["boolean", "date", "number", "string", "number[]", "string[]", "unknown"] ∧
    mapType "json" = "unknown" :=
  ⟨by decide, mapType_total_unknown_fallback "json" (by decide)⟩

/-- Claim C9: in the general intersection branch (reachable only when the
entity is not the no-base/one-extension case handled earlier), every
emitted intersection member is either the base-fields type or an indexed
access into the plugin-fields type — the defensive `never` fallback is
unreachable because `needPluginMap` is necessarily true whenever at least
one extension id is present there. -/
theorem intersection_parts_no_never (P : String) (baseF : Fields)
    (pfm : List (String × Fields))
    (h : ¬ (baseF.length = 0 ∧ pfm.length = 1)) :
    ∀ s ∈ intersectionParts P baseF pfm,
      s = "Base" ++ P ++ "Fields" ∨
      ∃ id ∈ pfm.map Prod.fst, s = P ++ "PluginFields[" ++ jsonStringify id ++ "]" := by
  intro s hs
  simp only [intersectionParts] at hs
  rcases List.mem_append.mp hs with hL | hR
  · by_cases hb : baseF.length ≠ 0
    · rw [if_pos hb] at hL
      left
      simpa using hL
    · rw [if_neg hb] at hL
      simp at hL
  · by_cases hl : (pfm.map Prod.fst).length ≠ 0
    · rw [if_pos hl] at hR
      obtain ⟨id, hid, hs2⟩ := List.mem_map.mp hR
      right
      refine ⟨id, hid, ?_⟩
      have hnp : (decide ((pfm.map Prod.fst).length > 1) || decide (baseF.length ≠ 0)) = true := by
        simp only [Bool.or_eq_true, decide_eq_true_eq]
        by_cases h1 : (pfm.map Prod.fst).length > 1
        · exact Or.inl h1
        · have hlen1 : (pfm.map Prod.fst).length = 1 := by omega
          have hpfm : pfm.length = 1 := by simpa using hlen1
          exact Or.inr (fun hb0 => h ⟨hb0, hpfm⟩)
      rw [← hs2, hnp]
      simp
    · rw [if_neg hl] at hR
      simp at hR

theorem intersection_parts_no_never_witness :
    "BaseUserFields" = "Base" ++ "User" ++ "Fields" ∨
    ∃ id ∈ ([("admin", [("banned", FieldAttr.mk "boolean" false none)])] :
        List (String × Fields)).map Prod.fst,
      "BaseUserFields" = "User" ++ "PluginFields[" ++ jsonStringify id ++ "]" :=
  intersection_parts_no_never "User" [("email", FieldAttr.mk "string" true none)]
    [("admin", [("banned", FieldAttr.mk "boolean" false none)])]
    (by decide) "BaseUserFields" (by decide)

end BetterAuthGen
